import Mathlib

/-!
Shallow embedding of the indicator / signal-voting engine of
`signal_watch` (`indicators.py` and `signals.py`).

Numeric cells are modelled as `Option ℚ`: `none` stands for pandas
`NaN` (undefined), `some v` for the finite value `v`.  All float
comparisons against `NaN` are `False` in numpy/pandas, which the
boolean comparison helpers below reproduce.  Exact rational arithmetic
stands in for IEEE floats, as the spec describes the algorithms over
exact recurrences.  The one operation with no rational counterpart,
the square root inside `rolling(n).std`, is passed in as an explicit
function parameter `sq`; theorems assume of it only what they need
(for instance `sq 0 = 0`).
-/

namespace SignalWatch

/-- A pandas cell: `none` is `NaN`. -/
abbrev F := Option ℚ

/-- Float `<=` with NaN semantics: any comparison involving NaN is false. -/
def fle : F → F → Bool
  | some a, some b => decide (a ≤ b)
  | _, _ => false

/-- Float `<` with NaN semantics: any comparison involving NaN is false. -/
def flt : F → F → Bool
  | some a, some b => decide (a < b)
  | _, _ => false

/-- Cell subtraction; NaN propagates. -/
def fsub : F → F → F
  | some a, some b => some (a - b)
  | _, _ => none

/-- Cell addition; NaN propagates. -/
def fadd : F → F → F
  | some a, some b => some (a + b)
  | _, _ => none

/-- Cell division; NaN propagates.  numpy would give ±inf for a zero
denominator; the code only divides after `.replace(0, nan)`, so that
branch is unreachable there (proved in the RSI theorems), and we map
it to `none`. -/
def fdiv : F → F → F
  | some a, some b => if b = 0 then none else some (a / b)
  | _, _ => none

/-- Scale a cell by a constant. -/
def fscale (c : ℚ) : F → F := Option.map (fun v => c * v)

/-- `Series.diff()`: first entry NaN, then pairwise differences. -/
def diff (xs : List F) : List F :=
  (List.range xs.length).map fun i =>
    if i = 0 then none else fsub (xs.getD i none) (xs.getD (i - 1) none)

/-- `Series.shift(1)`: entry `i` takes the value formerly at `i-1`; entry 0 is NaN. -/
def shift1 (xs : List F) : List F :=
  (List.range xs.length).map fun i =>
    if i = 0 then none else xs.getD (i - 1) none

/-- Collect a window of cells if every one of them is defined. -/
def allSome : List F → Option (List ℚ)
  | [] => some []
  | none :: _ => none
  | some v :: xs => (allSome xs).map (fun vs => v :: vs)

/-- `Series.rolling(n).mean()` with the default `min_periods = n`: the
value at `i` is the mean of the window `i-n+1 .. i` when the window is
full and entirely defined, NaN otherwise. -/
def rollingMean (n : ℕ) (xs : List F) : List F :=
  (List.range xs.length).map fun i =>
    if n ≤ i + 1 then
      match allSome ((xs.drop (i + 1 - n)).take n) with
      | some vs => some (vs.sum / (n : ℚ))
      | none => none
    else none

/-- Population variance (`ddof = 0`) of a window of values. -/
def pvariance (vs : List ℚ) : ℚ :=
  let m := vs.sum / (vs.length : ℚ)
  ((vs.map fun v => (v - m) ^ 2).sum) / (vs.length : ℚ)

/-- `Series.rolling(n).std(ddof=0)`: square root of the population
variance of each full, fully-defined window; `sq` is the square-root
routine (see module comment). -/
def rollingStd (sq : ℚ → ℚ) (n : ℕ) (xs : List F) : List F :=
  (List.range xs.length).map fun i =>
    if n ≤ i + 1 then
      match allSome ((xs.drop (i + 1 - n)).take n) with
      | some vs => some (sq (pvariance vs))
      | none => none
    else none

/-- Running state of `ewm(adjust=False, ignore_na=False).mean()` after the
first defined value: `num`/`den` are the decayed weighted sum and weight
total (over defined observations, with per-position decay `1-a`). -/
def ewmRec (a : ℚ) (num den : ℚ) : List F → List F
  | [] => []
  | some v :: xs =>
    let n2 := (1 - a) * num + a * v
    let d2 := (1 - a) * den + a
    some (n2 / d2) :: ewmRec a n2 d2 xs
  | none :: xs =>
    let n1 := (1 - a) * num
    let d1 := (1 - a) * den
    some (n1 / d1) :: ewmRec a n1 d1 xs

/-- `Series.ewm(alpha=a, adjust=False).mean()`: NaN until the first
defined value, which seeds the recurrence; afterwards the decayed
weighted mean of `ewmRec`.  On a fully defined series this is exactly
`y[0] = x[0]`, `y[i] = a*x[i] + (1-a)*y[i-1]`. -/
def ewmMean (a : ℚ) : List F → List F
  | [] => []
  | none :: xs => none :: ewmMean a xs
  | some v :: xs => some v :: ewmRec a v 1 xs

/-- `ema(series, span) = series.ewm(span=span, adjust=False).mean()`,
smoothing factor `2/(span+1)`. -/
def ema (xs : List F) (span : ℕ) : List F :=
  ewmMean (2 / ((span : ℚ) + 1)) xs

/-- `macd(close, fast, slow, signal_span)`: MACD line, signal line, histogram. -/
def macd (close : List F) (fast slow signal_span : ℕ) :
    List F × List F × List F :=
  let macd_line := List.zipWith fsub (ema close fast) (ema close slow)
  let signal_line := ema macd_line signal_span
  let hist := List.zipWith fsub macd_line signal_line
  (macd_line, signal_line, hist)

/-- `delta.clip(lower=0)` of the price deltas: the per-bar gains. -/
def gains (close : List F) : List F :=
  (diff close).map (Option.map fun v => max v 0)

/-- `-delta.clip(upper=0)` of the price deltas: the per-bar losses. -/
def losses (close : List F) : List F :=
  ((diff close).map (Option.map fun v => min v 0)).map (Option.map Neg.neg)

/-- `gain.rolling(period).mean()`: the simple first averages of gains. -/
def avgGainRaw (close : List F) (period : ℕ) : List F :=
  rollingMean period (gains close)

/-- `loss.rolling(period).mean()`: the simple first averages of losses. -/
def avgLossRaw (close : List F) (period : ℕ) : List F :=
  rollingMean period (losses close)

/-- `avg_gain.shift(1).ewm(alpha=1/period, adjust=False).mean()`:
Wilder-smoothed average gain, lagged one bar. -/
def avgGainS (close : List F) (period : ℕ) : List F :=
  ewmMean (1 / (period : ℚ)) (shift1 (avgGainRaw close period))

/-- `avg_loss.shift(1).ewm(alpha=1/period, adjust=False).mean()`:
Wilder-smoothed average loss, lagged one bar. -/
def avgLossS (close : List F) (period : ℕ) : List F :=
  ewmMean (1 / (period : ℚ)) (shift1 (avgLossRaw close period))

/-- `.replace(0, nan)` on a cell. -/
def replace0 : F → F
  | some v => if v = 0 then none else some v
  | none => none

/-- `100 - 100/(1+rs)` on a cell; NaN propagates.  (`1 + rs = 0` would be a
float division by zero; the RSI theorems show `rs ≥ 0` wherever defined,
so that case never arises.) -/
def rsiF : F → F
  | none => none
  | some r => some (100 - 100 / (1 + r))

/-- `rsi(close, period)`: Wilder RSI as in `indicators.rsi`. -/
def rsi (close : List F) (period : ℕ) : List F :=
  (List.zipWith fdiv (avgGainS close period)
      ((avgLossS close period).map replace0)).map rsiF

/-- `bollinger(close, n, n_std)`: upper, middle, lower bands. -/
def bollinger (sq : ℚ → ℚ) (close : List F) (n : ℕ) (n_std : ℚ) :
    List F × List F × List F :=
  let mid := rollingMean n close
  let std := rollingStd sq n close
  let upper := List.zipWith fadd mid (std.map (fscale n_std))
  let lower := List.zipWith fsub mid (std.map (fscale n_std))
  (upper, mid, lower)

/-! ## DataFrames -/

/-- A DataFrame: a row index (timestamp keys) plus named columns. -/
structure DFrame where
  index : List ℕ
  cols : List (String × List F)
deriving DecidableEq

/-- Column names used by `attach_indicators` and the classifiers. -/
def cMACD : String := "MACD"

def cMACDSIG : String := "MACD_SIGNAL"

def cMACDHIST : String := "MACD_HIST"

def cRSI : String := "RSI"

def cBBUP : String := "BB_UPPER"

def cBBMID : String := "BB_MID"

def cBBLO : String := "BB_LOWER"

/-- The seven indicator columns `attach_indicators` writes. -/
def indicatorNames : List String :=
  [cMACD, cMACDSIG, cMACDHIST, cRSI, cBBUP, cBBMID, cBBLO]

/-- Overwrite a column in place if it exists, else append it. -/
def setColAux (name : String) (v : List F) :
    List (String × List F) → List (String × List F)
  | [] => [(name, v)]
  | (n, w) :: rest =>
    if n = name then (n, v) :: rest else (n, w) :: setColAux name v rest

/-- `df[name] = v`. -/
def setCol (df : DFrame) (name : String) (v : List F) : DFrame :=
  ⟨df.index, setColAux name v df.cols⟩

/-- Column lookup, `[]` when absent (reads in the classifiers are always
on present columns). -/
def getCol (df : DFrame) (name : String) : List F :=
  (df.cols.lookup name).getD []

/-- `df[name].iloc[i]`, NaN when out of range. -/
def colv (df : DFrame) (name : String) (i : ℕ) : F :=
  (getCol df name).getD i none

/-- `attach_indicators(df, price_col)`: computes MACD, RSI and Bollinger
columns from the price column and writes the seven indicator columns;
`none` models the KeyError on a missing price column. -/
def attach_indicators (sq : ℚ → ℚ) (df : DFrame) (price_col : String) :
    Option DFrame :=
  match df.cols.lookup price_col with
  | none => none
  | some close =>
    let m := macd close 12 26 9
    let r := rsi close 14
    let b := bollinger sq close 20 2
    let d1 := setCol df cMACD m.1
    let d2 := setCol d1 cMACDSIG m.2.1
    let d3 := setCol d2 cMACDHIST m.2.2
    let d4 := setCol d3 cRSI r
    let d5 := setCol d4 cBBUP b.1
    let d6 := setCol d5 cBBMID b.2.1
    let d7 := setCol d6 cBBLO b.2.2
    some d7

/-! ## Signals -/

/-- Discrete signal state. -/
inductive State where
  | BUY
  | SELL
  | HOLD
deriving DecidableEq, BEq, Fintype

/-- `crossed_up(prev_a, curr_a, prev_b, curr_b)`:
`prev_a <= prev_b and curr_a > curr_b` (false on any NaN). -/
def crossed_up (prev_a curr_a prev_b curr_b : F) : Bool :=
  fle prev_a prev_b && flt curr_b curr_a

/-- `crossed_down(prev_a, curr_a, prev_b, curr_b)`:
`prev_a >= prev_b and curr_a < curr_b` (false on any NaN). -/
def crossed_down (prev_a curr_a prev_b curr_b : F) : Bool :=
  fle prev_b prev_a && flt curr_a curr_b

/-- The MACD buy condition at `idx` (signal-line cross up). -/
def macdBuyCond (df : DFrame) (idx : ℕ) : Bool :=
  crossed_up (colv df cMACD (idx - 1)) (colv df cMACD idx)
    (colv df cMACDSIG (idx - 1)) (colv df cMACDSIG idx)

/-- The MACD sell condition at `idx` (signal-line cross down). -/
def macdSellCond (df : DFrame) (idx : ℕ) : Bool :=
  crossed_down (colv df cMACD (idx - 1)) (colv df cMACD idx)
    (colv df cMACDSIG (idx - 1)) (colv df cMACDSIG idx)

/-- `macd_state(df, idx)`. -/
def macd_state (df : DFrame) (idx : ℕ) : State :=
  if idx = 0 then State.HOLD
  else if macdBuyCond df idx then State.BUY
  else if macdSellCond df idx then State.SELL
  else State.HOLD

/-- The RSI buy condition at `idx`: cross up through 30 or through 50. -/
def rsiBuyCond (df : DFrame) (idx : ℕ) : Bool :=
  crossed_up (colv df cRSI (idx - 1)) (colv df cRSI idx) (some 30) (some 30) ||
    crossed_up (colv df cRSI (idx - 1)) (colv df cRSI idx) (some 50) (some 50)

/-- The RSI sell condition at `idx`: cross down through 70 or through 50. -/
def rsiSellCond (df : DFrame) (idx : ℕ) : Bool :=
  crossed_down (colv df cRSI (idx - 1)) (colv df cRSI idx) (some 70) (some 70) ||
    crossed_down (colv df cRSI (idx - 1)) (colv df cRSI idx) (some 50) (some 50)

/-- `rsi_state(df, idx)`. -/
def rsi_state (df : DFrame) (idx : ℕ) : State :=
  if idx = 0 then State.HOLD
  else if rsiBuyCond df idx then State.BUY
  else if rsiSellCond df idx then State.SELL
  else State.HOLD

/-- The Bollinger buy condition at `idx`: previous close strictly below
the lower band, current close back inside `[lower, upper]`. -/
def bbBuyCond (df : DFrame) (idx : ℕ) (price_col : String) : Bool :=
  flt (colv df price_col (idx - 1)) (colv df cBBLO (idx - 1)) &&
    (fle (colv df cBBLO idx) (colv df price_col idx) &&
      fle (colv df price_col idx) (colv df cBBUP idx))

/-- The Bollinger sell condition at `idx`: previous close strictly above
the upper band, current close back inside `[lower, upper]`. -/
def bbSellCond (df : DFrame) (idx : ℕ) (price_col : String) : Bool :=
  flt (colv df cBBUP (idx - 1)) (colv df price_col (idx - 1)) &&
    (fle (colv df cBBLO idx) (colv df price_col idx) &&
      fle (colv df price_col idx) (colv df cBBUP idx))

/-- `bb_state(df, idx, price_col)`. -/
def bb_state (df : DFrame) (idx : ℕ) (price_col : String) : State :=
  if idx = 0 then State.HOLD
  else if bbBuyCond df idx price_col then State.BUY
  else if bbSellCond df idx price_col then State.SELL
  else State.HOLD

/-- `majority(macd_s, rsi_s, bb_s)`: two or more buy votes win, then two
or more sell votes, else hold. -/
def majority (macd_s rsi_s bb_s : State) : State :=
  let votes := [macd_s, rsi_s, bb_s]
  let buys := votes.countP (fun v => v == State.BUY)
  let sells := votes.countP (fun v => v == State.SELL)
  if 2 ≤ buys then State.BUY
  else if 2 ≤ sells then State.SELL
  else State.HOLD

/-- The result dictionary of `latest_snapshot`. -/
structure Snapshot where
  macd : State
  rsi : State
  bb : State
  majority : State
  index : ℕ
deriving DecidableEq

/-- Price column name used by the concrete test frames below. -/
def cPX : String := "PX"

/-- Test frame: `BB_UPPER` undefined at bar 0 while `BB_LOWER` is defined
there and the buy condition fires at bar 1. -/
def dfBB0 : DFrame :=
  ⟨[0, 1], [(cPX, [some 5, some 5]), (cBBUP, [none, some 10]),
    (cBBLO, [some 10, some 0])]⟩

/-- Test frame: inverted bands at bar 0 (`BB_LOWER > BB_UPPER`), normal
bands at bar 1, price between them throughout. -/
def dfBB1 : DFrame :=
  ⟨[0, 1], [(cPX, [some 5, some 5]), (cBBUP, [some 0, some 10]),
    (cBBLO, [some 10, some 0])]⟩

/-- Test frame: carries a pre-existing column named `RSI`. -/
def dfRSI5 : DFrame := ⟨[0], [(cRSI, [some 5]), (cPX, [some 1])]⟩

/-- Test frame: a single price column with one bar. -/
def dfPX1 : DFrame := ⟨[0], [(cPX, [some 1])]⟩

/-- Test frame: a single bar carrying only an index key. -/
def dfOneBar : DFrame := ⟨[5], []⟩

/-- Test frame: MACD column undefined at bar 0, signal column defined. -/
def dfMACDnan : DFrame :=
  ⟨[0, 1], [(cMACD, [none, some 1]), (cMACDSIG, [some 0, some 0])]⟩

/-- A frame holding a price column and the Bollinger bands computed from
it, as the classifiers consume them. -/
def bbFrame (sq : ℚ → ℚ) (close : List F) (n : ℕ) (k : ℚ) : DFrame :=
  ⟨List.range close.length,
    [(cPX, close), (cBBUP, (bollinger sq close n k).1),
      (cBBLO, (bollinger sq close n k).2.2)]⟩

/-- The `ValueError` message raised on an empty frame
(the spec's `EmptyInputError`). -/
def emptyMsg : String := "DataFrame is empty"

/-- `latest_snapshot(df, price_col)`: raises on an empty frame, else
evaluates the three classifiers and the majority at the last row.
pandas `df.empty` is true when either axis has length 0 — zero rows or
zero columns — so both cases take the error path. -/
def latest_snapshot (df : DFrame) (price_col : String) :
    Except String Snapshot :=
  if df.index.length = 0 ∨ df.cols.length = 0 then Except.error emptyMsg
  else
    let idx := df.index.length - 1
    let macd_s := macd_state df idx
    let rsi_s := rsi_state df idx
    let bb_s := bb_state df idx price_col
    let maj := majority macd_s rsi_s bb_s
    Except.ok ⟨macd_s, rsi_s, bb_s, maj, df.index.getD idx 0⟩

/-! ## Helper lemmas -/

theorem fle_eq_true {x y : F} (h : fle x y = true) :
    ∃ a b, x = some a ∧ y = some b ∧ a ≤ b := by
  cases x with
  | none => simp [fle] at h
  | some a =>
    cases y with
    | none => simp [fle] at h
    | some b => exact ⟨a, b, rfl, rfl, of_decide_eq_true h⟩

theorem flt_eq_true {x y : F} (h : flt x y = true) :
    ∃ a b, x = some a ∧ y = some b ∧ a < b := by
  cases x with
  | none => simp [flt] at h
  | some a =>
    cases y with
    | none => simp [flt] at h
    | some b => exact ⟨a, b, rfl, rfl, of_decide_eq_true h⟩

theorem crossed_excl (pa ca pb cb : F) :
    ¬(crossed_up pa ca pb cb = true ∧ crossed_down pa ca pb cb = true) := by
  rintro ⟨h1, h2⟩
  simp only [crossed_up, crossed_down, Bool.and_eq_true] at h1 h2
  obtain ⟨a, b, hca, hcb, hab⟩ := flt_eq_true h1.2
  obtain ⟨a2, b2, hca2, hcb2, hab2⟩ := flt_eq_true h2.2
  rw [hca] at hcb2
  rw [hcb] at hca2
  cases hcb2
  cases hca2
  exact absurd hab2 (not_lt.mpr hab.le)

theorem macd_excl (df : DFrame) (idx : ℕ) :
    ¬(macdBuyCond df idx = true ∧ macdSellCond df idx = true) :=
  crossed_excl _ _ _ _

theorem rsi_excl (df : DFrame) (idx : ℕ) :
    ¬(rsiBuyCond df idx = true ∧ rsiSellCond df idx = true) := by
  rintro ⟨hb, hs⟩
  simp only [rsiBuyCond, rsiSellCond, Bool.or_eq_true, crossed_up,
    crossed_down, Bool.and_eq_true] at hb hs
  rcases hb with ⟨hb1, hb2⟩ | ⟨hb1, hb2⟩ <;>
    rcases hs with ⟨hs1, hs2⟩ | ⟨hs1, hs2⟩ <;>
  · obtain ⟨p, t, hp, ht, hpt⟩ := fle_eq_true hb1
    obtain ⟨t2, n, ht2, hn, htn⟩ := flt_eq_true hb2
    obtain ⟨t3, p2, ht3, hp2, htp⟩ := fle_eq_true hs1
    obtain ⟨n2, t4, hn2, ht4, hnt⟩ := flt_eq_true hs2
    rw [hp] at hp2
    rw [hn] at hn2
    cases hp2
    cases hn2
    cases ht
    cases ht2
    cases ht3
    cases ht4
    linarith

theorem bb_excl (df : DFrame) (idx : ℕ) (pc : String)
    (hband : ∀ u l : ℚ, colv df cBBUP (idx - 1) = some u →
      colv df cBBLO (idx - 1) = some l → l ≤ u) :
    ¬(bbBuyCond df idx pc = true ∧ bbSellCond df idx pc = true) := by
  rintro ⟨hb, hs⟩
  simp only [bbBuyCond, bbSellCond, Bool.and_eq_true] at hb hs
  obtain ⟨c, l, hc, hl, hcl⟩ := flt_eq_true hb.1
  obtain ⟨u, c2, hu, hc2, huc⟩ := flt_eq_true hs.1
  rw [hc] at hc2
  cases hc2
  have := hband u l hu hl
  linarith

theorem state_total (s : State) :
    s = State.BUY ∨ s = State.SELL ∨ s = State.HOLD := by
  cases s <;> simp

theorem lookup_setColAux (c n : String) (v : List F)
    (l : List (String × List F)) (h : ¬ c = n) :
    List.lookup c (setColAux n v l) = List.lookup c l := by
  have hcn : (c == n) = false := beq_eq_false_iff_ne.mpr h
  induction l with
  | nil => simp [setColAux, List.lookup, hcn]
  | cons kv rest ih =>
    obtain ⟨m, w⟩ := kv
    by_cases hmn : m = n
    · subst hmn
      simp only [setColAux, if_pos rfl, List.lookup]
      have : (c == m) = false := beq_eq_false_iff_ne.mpr h
      rw [this]
    · simp only [setColAux, if_neg hmn, List.lookup]
      cases hcm : c == m with
      | true => rfl
      | false => exact ih

theorem getCol_setCol_ne (df : DFrame) (n : String) (v : List F)
    (c : String) (h : ¬ c = n) :
    getCol (setCol df n v) c = getCol df c := by
  simp [getCol, setCol, lookup_setColAux c n v df.cols h]

/-! ## Claims -/

/-- C1: `majority` returns BUY when at least two of the three states are
BUY, SELL when at least two are SELL, HOLD otherwise; it is invariant
under every permutation of its arguments, and
`majority BUY SELL HOLD = HOLD`. -/
theorem majority_vote_spec : ∀ a b c : State,
    (2 ≤ [a, b, c].countP (fun v => v == State.BUY) →
      majority a b c = State.BUY) ∧
    (2 ≤ [a, b, c].countP (fun v => v == State.SELL) →
      majority a b c = State.SELL) ∧
    ([a, b, c].countP (fun v => v == State.BUY) < 2 ∧
      [a, b, c].countP (fun v => v == State.SELL) < 2 →
      majority a b c = State.HOLD) ∧
    (majority a b c = majority a c b ∧ majority a b c = majority b a c ∧
      majority a b c = majority b c a ∧ majority a b c = majority c a b ∧
      majority a b c = majority c b a) ∧
    majority State.BUY State.SELL State.HOLD = State.HOLD := by decide

/-- Witness for C1 at a concrete vote. -/
theorem majority_vote_spec_witness :
    majority State.BUY State.BUY State.SELL = State.BUY :=
  (majority_vote_spec State.BUY State.BUY State.SELL).1 (by decide)

theorem ewmRec_length (a : ℚ) (xs : List F) : ∀ num den : ℚ,
    (ewmRec a num den xs).length = xs.length := by
  induction xs with
  | nil => intro num den; rfl
  | cons x rest ih => intro num den; cases x <;> simp [ewmRec, ih]

theorem ewmMean_length (a : ℚ) (xs : List F) :
    (ewmMean a xs).length = xs.length := by
  induction xs with
  | nil => rfl
  | cons x rest ih => cases x <;> simp [ewmMean, ih, ewmRec_length]

theorem ema_length (xs : List F) (span : ℕ) :
    (ema xs span).length = xs.length :=
  ewmMean_length _ _

theorem ewmRec_allSome_cons (a num x : ℚ) (xs : List ℚ) :
    ewmRec a num 1 ((x :: xs).map some) =
      some ((1 - a) * num + a * x) ::
        ewmRec a ((1 - a) * num + a * x) 1 (xs.map some) := by
  have hden : (1 - a) * 1 + a = 1 := by ring
  simp only [List.map_cons, ewmRec, hden, div_one]

theorem ewmRec_allSome_rec (a : ℚ) : ∀ (xs : List ℚ) (num : ℚ) (i : ℕ)
    (y : ℚ), i + 1 < xs.length →
    (ewmRec a num 1 (xs.map some))[i]? = some (some y) →
    (ewmRec a num 1 (xs.map some))[i + 1]? =
      some (some (a * xs.getD (i + 1) 0 + (1 - a) * y)) := by
  intro xs
  induction xs with
  | nil => intro num i y h; simp at h
  | cons x rest ih =>
    intro num i y hlen hy
    rw [ewmRec_allSome_cons] at hy ⊢
    cases i with
    | zero =>
      simp only [List.getElem?_cons_zero, Option.some.injEq] at hy
      cases rest with
      | nil => simp at hlen
      | cons r rest2 =>
        rw [List.getElem?_cons_succ, ewmRec_allSome_cons]
        simp only [List.getElem?_cons_zero, Option.some.injEq,
          List.getD_cons_succ, List.getD_cons_zero]
        rw [← hy]
        ring_nf
    | succ j =>
      rw [List.getElem?_cons_succ] at hy
      rw [List.getElem?_cons_succ]
      have hlen' : j + 1 < rest.length := by
        simpa using Nat.lt_of_succ_lt_succ hlen
      simpa using ih ((1 - a) * num + a * x) j y hlen' hy

theorem ema_allSome_head (a : ℚ) (x : ℚ) (xs : List ℚ) :
    (ewmMean a ((x :: xs).map some))[0]? = some (some x) := by
  simp [ewmMean]

theorem ema_allSome_rec (a : ℚ) (xs : List ℚ) (i : ℕ) (y : ℚ)
    (hlen : i + 1 < xs.length)
    (hy : (ewmMean a (xs.map some))[i]? = some (some y)) :
    (ewmMean a (xs.map some))[i + 1]? =
      some (some (a * xs.getD (i + 1) 0 + (1 - a) * y)) := by
  cases xs with
  | nil => simp at hlen
  | cons x rest =>
    have hun : ewmMean a ((x :: rest).map some) =
        some x :: ewmRec a x 1 (rest.map some) := rfl
    rw [hun] at hy ⊢
    cases i with
    | zero =>
      simp only [List.getElem?_cons_zero, Option.some.injEq] at hy
      cases rest with
      | nil => simp at hlen
      | cons r rest2 =>
        rw [List.getElem?_cons_succ, ewmRec_allSome_cons]
        simp only [List.getElem?_cons_zero, Option.some.injEq,
          List.getD_cons_succ, List.getD_cons_zero]
        rw [← hy]
        ring_nf
    | succ j =>
      rw [List.getElem?_cons_succ] at hy
      rw [List.getElem?_cons_succ]
      have hlen' : j + 1 < rest.length := by
        simpa using Nat.lt_of_succ_lt_succ hlen
      simpa using ewmRec_allSome_rec a rest x j y hlen' hy

/-- C3: on a non-empty numeric series, `ema` preserves the length and
alignment, starts at the series head, and obeys
`ema[i] = a*x[i] + (1-a)*ema[i-1]` with `a = 2/(span+1)`. -/
theorem ema_recurrence_spec (xs : List ℚ) (span : ℕ)
    (hxs : xs ≠ []) (hspan : 1 ≤ span) :
    (ema (xs.map some) span).length = xs.length ∧
    (ema (xs.map some) span)[0]? = some (some (xs.getD 0 0)) ∧
    ∀ i y, i + 1 < xs.length →
      (ema (xs.map some) span)[i]? = some (some y) →
      (ema (xs.map some) span)[i + 1]? =
        some (some ((2 / ((span : ℚ) + 1)) * xs.getD (i + 1) 0 +
          (1 - 2 / ((span : ℚ) + 1)) * y)) := by
  have _ := hspan
  refine ⟨?_, ?_, ?_⟩
  · rw [ema, ewmMean_length, List.length_map]
  · cases xs with
    | nil => exact absurd rfl hxs
    | cons x rest => simpa using ema_allSome_head (2 / ((span : ℚ) + 1)) x rest
  · intro i y hlen hy
    exact ema_allSome_rec _ xs i y hlen hy

/-- Witness for C3 at a concrete two-bar series. -/
theorem ema_recurrence_spec_witness :
    (ema ([(1 : ℚ), 2].map some) 1).length = [(1 : ℚ), 2].length :=
  (ema_recurrence_spec [1, 2] 1 (by decide) (by decide)).1

/-- An operation on series is causal when equal prefixes of the input
give equal prefixes of the output. -/
def Causal (O : List F → List F) : Prop :=
  ∀ (n : ℕ) (xs ys : List F), xs.take n = ys.take n →
    (O xs).take n = (O ys).take n

theorem getElem?_of_take_eq {α : Type} {xs ys : List α} {n i : ℕ}
    (h : xs.take n = ys.take n) (hi : i < n) : xs[i]? = ys[i]? :=
  calc xs[i]? = (xs.take n)[i]? := (List.getElem?_take_of_lt hi).symm
    _ = (ys.take n)[i]? := by rw [h]
    _ = ys[i]? := List.getElem?_take_of_lt hi

theorem getD_of_take_eq {xs ys : List F} {n j : ℕ}
    (h : xs.take n = ys.take n) (hj : j < n) :
    xs.getD j none = ys.getD j none := by
  rw [List.getD_eq_getElem?_getD, List.getD_eq_getElem?_getD,
    getElem?_of_take_eq h hj]

theorem length_min_of_take_eq {α : Type} {xs ys : List α} {n : ℕ}
    (h : xs.take n = ys.take n) : min n xs.length = min n ys.length := by
  have := congrArg List.length h
  simpa [List.length_take] using this

theorem take_of_take_eq {α : Type} {xs ys : List α} {n j : ℕ}
    (h : xs.take n = ys.take n) (hj : j ≤ n) :
    xs.take j = ys.take j := by
  have := congrArg (List.take j) h
  simpa [List.take_take, Nat.min_eq_left hj] using this

theorem rangeMap_causal (E : List F → ℕ → F)
    (hE : ∀ (as bs : List F) (i : ℕ), as.take (i + 1) = bs.take (i + 1) →
      E as i = E bs i)
    (n : ℕ) (xs ys : List F) (h : xs.take n = ys.take n) :
    ((List.range xs.length).map (E xs)).take n =
      ((List.range ys.length).map (E ys)).take n := by
  apply List.ext_getElem?
  intro j
  rw [List.getElem?_take, List.getElem?_take]
  split
  · rename_i hj
    rw [List.getElem?_map, List.getElem?_map]
    by_cases hx : j < xs.length
    · have hy : j < ys.length := by
        have hm := length_min_of_take_eq h
        have h1 : j < min n xs.length := lt_min hj hx
        rw [hm] at h1
        exact lt_of_lt_of_le h1 (min_le_right _ _)
      rw [List.getElem?_range hx, List.getElem?_range hy]
      exact congrArg some (hE xs ys j (take_of_take_eq h (Nat.succ_le_of_lt hj)))
    · have hy : ¬ j < ys.length := by
        intro hcon
        have hm := length_min_of_take_eq h
        have h1 : j < min n ys.length := lt_min hj hcon
        rw [← hm] at h1
        exact hx (lt_of_lt_of_le h1 (min_le_right _ _))
      rw [List.getElem?_eq_none (by simpa using Nat.le_of_not_lt hx),
        List.getElem?_eq_none (by simpa using Nat.le_of_not_lt hy)]
      rfl
  · rfl

theorem diff_causal : Causal diff := by
  intro n xs ys h
  unfold diff
  refine rangeMap_causal
    (fun l i => if i = 0 then none else fsub (l.getD i none) (l.getD (i - 1) none))
    ?_ n xs ys h
  intro as bs i hi
  dsimp only
  by_cases h0 : i = 0
  · rw [if_pos h0, if_pos h0]
  · have h1 : i < i + 1 := Nat.lt_succ_self i
    have h2 : i - 1 < i + 1 := by omega
    rw [if_neg h0, if_neg h0, getD_of_take_eq hi h1, getD_of_take_eq hi h2]

theorem shift1_causal : Causal shift1 := by
  intro n xs ys h
  unfold shift1
  refine rangeMap_causal
    (fun l i => if i = 0 then none else l.getD (i - 1) none)
    ?_ n xs ys h
  intro as bs i hi
  dsimp only
  by_cases h0 : i = 0
  · rw [if_pos h0, if_pos h0]
  · have h2 : i - 1 < i + 1 := by omega
    rw [if_neg h0, if_neg h0, getD_of_take_eq hi h2]

theorem window_take_eq {xs ys : List F} {i k : ℕ}
    (h : xs.take (i + 1) = ys.take (i + 1)) (hk : k ≤ i + 1) :
    (xs.drop (i + 1 - k)).take k = (ys.drop (i + 1 - k)).take k := by
  rw [List.take_drop, List.take_drop, Nat.sub_add_cancel hk, h]

theorem rollingMean_causal (k : ℕ) : Causal (rollingMean k) := by
  intro n xs ys h
  unfold rollingMean
  refine rangeMap_causal
    (fun l i =>
      if k ≤ i + 1 then
        match allSome ((l.drop (i + 1 - k)).take k) with
        | some vs => some (vs.sum / (k : ℚ))
        | none => none
      else none)
    ?_ n xs ys h
  intro as bs i hi
  dsimp only
  by_cases hg : k ≤ i + 1
  · rw [if_pos hg, if_pos hg, window_take_eq hi hg]
  · rw [if_neg hg, if_neg hg]

theorem rollingStd_causal (sq : ℚ → ℚ) (k : ℕ) : Causal (rollingStd sq k) := by
  intro n xs ys h
  unfold rollingStd
  refine rangeMap_causal
    (fun l i =>
      if k ≤ i + 1 then
        match allSome ((l.drop (i + 1 - k)).take k) with
        | some vs => some (sq (pvariance vs))
        | none => none
      else none)
    ?_ n xs ys h
  intro as bs i hi
  dsimp only
  by_cases hg : k ≤ i + 1
  · rw [if_pos hg, if_pos hg, window_take_eq hi hg]
  · rw [if_neg hg, if_neg hg]

theorem map_causal (g : F → F) : Causal (List.map g) := by
  intro n xs ys h
  have := congrArg (List.map g) h
  simpa [List.map_take] using this

theorem ewmRec_take_eq (a : ℚ) : ∀ (n : ℕ) (xs ys : List F) (num den : ℚ),
    xs.take n = ys.take n →
    (ewmRec a num den xs).take n = (ewmRec a num den ys).take n := by
  intro n
  induction n with
  | zero => intro xs ys num den h; simp
  | succ m ih =>
    intro xs ys num den h
    cases xs with
    | nil =>
      have hnil : ys.take (m + 1) = [] := by simpa using h.symm
      have hys : ys = [] := by
        cases ys with
        | nil => rfl
        | cons b bs => simp at hnil
      subst hys; rfl
    | cons x xs2 =>
      cases ys with
      | nil => simp at h
      | cons y ys2 =>
        rw [List.take_succ_cons, List.take_succ_cons] at h
        injection h with hxy htl
        subst hxy
        cases x with
        | some v =>
          simp only [ewmRec]
          rw [List.take_succ_cons, List.take_succ_cons]
          exact congrArg _ (ih xs2 ys2 _ _ htl)
        | none =>
          simp only [ewmRec]
          rw [List.take_succ_cons, List.take_succ_cons]
          exact congrArg _ (ih xs2 ys2 _ _ htl)

theorem ewmMean_causal (a : ℚ) : Causal (ewmMean a) := by
  intro n
  induction n with
  | zero => intro xs ys h; simp
  | succ m ih =>
    intro xs ys h
    cases xs with
    | nil =>
      have hnil : ys.take (m + 1) = [] := by simpa using h.symm
      have hys : ys = [] := by
        cases ys with
        | nil => rfl
        | cons b bs => simp at hnil
      subst hys; rfl
    | cons x xs2 =>
      cases ys with
      | nil => simp at h
      | cons y ys2 =>
        rw [List.take_succ_cons, List.take_succ_cons] at h
        injection h with hxy htl
        subst hxy
        cases x with
        | some v =>
          simp only [ewmMean]
          rw [List.take_succ_cons, List.take_succ_cons]
          exact congrArg _ (ewmRec_take_eq a m xs2 ys2 v 1 htl)
        | none =>
          simp only [ewmMean]
          rw [List.take_succ_cons, List.take_succ_cons]
          exact congrArg _ (ih xs2 ys2 htl)

theorem ema_causal (span : ℕ) (n : ℕ) (xs ys : List F)
    (h : xs.take n = ys.take n) :
    (ema xs span).take n = (ema ys span).take n :=
  ewmMean_causal _ n xs ys h

theorem macdLine_causal (fast slow sig : ℕ) (n : ℕ) (xs ys : List F)
    (h : xs.take n = ys.take n) :
    ((macd xs fast slow sig).1).take n = ((macd ys fast slow sig).1).take n := by
  show (List.zipWith fsub (ema xs fast) (ema xs slow)).take n =
    (List.zipWith fsub (ema ys fast) (ema ys slow)).take n
  rw [List.take_zipWith, List.take_zipWith, ema_causal fast n xs ys h,
    ema_causal slow n xs ys h]

theorem macdSignal_causal (fast slow sig : ℕ) (n : ℕ) (xs ys : List F)
    (h : xs.take n = ys.take n) :
    ((macd xs fast slow sig).2.1).take n =
      ((macd ys fast slow sig).2.1).take n := by
  show (ema (List.zipWith fsub (ema xs fast) (ema xs slow)) sig).take n =
    (ema (List.zipWith fsub (ema ys fast) (ema ys slow)) sig).take n
  exact ema_causal sig n _ _ (macdLine_causal fast slow sig n xs ys h)

theorem macdHist_causal (fast slow sig : ℕ) (n : ℕ) (xs ys : List F)
    (h : xs.take n = ys.take n) :
    ((macd xs fast slow sig).2.2).take n =
      ((macd ys fast slow sig).2.2).take n := by
  show (List.zipWith fsub (macd xs fast slow sig).1
      (macd xs fast slow sig).2.1).take n =
    (List.zipWith fsub (macd ys fast slow sig).1
      (macd ys fast slow sig).2.1).take n
  rw [List.take_zipWith, List.take_zipWith,
    macdLine_causal fast slow sig n xs ys h,
    macdSignal_causal fast slow sig n xs ys h]

theorem gains_causal (n : ℕ) (xs ys : List F) (h : xs.take n = ys.take n) :
    (gains xs).take n = (gains ys).take n :=
  map_causal _ n _ _ (diff_causal n xs ys h)

theorem losses_causal (n : ℕ) (xs ys : List F) (h : xs.take n = ys.take n) :
    (losses xs).take n = (losses ys).take n :=
  map_causal _ n _ _ (map_causal _ n _ _ (diff_causal n xs ys h))

theorem avgGainS_causal (p : ℕ) (n : ℕ) (xs ys : List F)
    (h : xs.take n = ys.take n) :
    (avgGainS xs p).take n = (avgGainS ys p).take n :=
  ewmMean_causal _ n _ _ (shift1_causal n _ _
    (rollingMean_causal p n _ _ (gains_causal n xs ys h)))

theorem avgLossS_causal (p : ℕ) (n : ℕ) (xs ys : List F)
    (h : xs.take n = ys.take n) :
    (avgLossS xs p).take n = (avgLossS ys p).take n :=
  ewmMean_causal _ n _ _ (shift1_causal n _ _
    (rollingMean_causal p n _ _ (losses_causal n xs ys h)))

theorem rsi_causal (p : ℕ) (n : ℕ) (xs ys : List F)
    (h : xs.take n = ys.take n) :
    (rsi xs p).take n = (rsi ys p).take n := by
  unfold rsi
  rw [← List.map_take, ← List.map_take, List.take_zipWith, List.take_zipWith,
    avgGainS_causal p n xs ys h,
    map_causal replace0 n _ _ (avgLossS_causal p n xs ys h)]

theorem bbMid_causal (sq : ℚ → ℚ) (bn : ℕ) (k : ℚ) (n : ℕ) (xs ys : List F)
    (h : xs.take n = ys.take n) :
    ((bollinger sq xs bn k).2.1).take n =
      ((bollinger sq ys bn k).2.1).take n :=
  rollingMean_causal bn n xs ys h

theorem bbUpper_causal (sq : ℚ → ℚ) (bn : ℕ) (k : ℚ) (n : ℕ) (xs ys : List F)
    (h : xs.take n = ys.take n) :
    ((bollinger sq xs bn k).1).take n = ((bollinger sq ys bn k).1).take n := by
  show (List.zipWith fadd (rollingMean bn xs)
      ((rollingStd sq bn xs).map (fscale k))).take n =
    (List.zipWith fadd (rollingMean bn ys)
      ((rollingStd sq bn ys).map (fscale k))).take n
  rw [List.take_zipWith, List.take_zipWith, rollingMean_causal bn n xs ys h,
    map_causal (fscale k) n _ _ (rollingStd_causal sq bn n xs ys h)]

theorem bbLower_causal (sq : ℚ → ℚ) (bn : ℕ) (k : ℚ) (n : ℕ) (xs ys : List F)
    (h : xs.take n = ys.take n) :
    ((bollinger sq xs bn k).2.2).take n =
      ((bollinger sq ys bn k).2.2).take n := by
  show (List.zipWith fsub (rollingMean bn xs)
      ((rollingStd sq bn xs).map (fscale k))).take n =
    (List.zipWith fsub (rollingMean bn ys)
      ((rollingStd sq bn ys).map (fscale k))).take n
  rw [List.take_zipWith, List.take_zipWith, rollingMean_causal bn n xs ys h,
    map_causal (fscale k) n _ _ (rollingStd_causal sq bn n xs ys h)]

/-- C5: every indicator is causal — if two price series agree on all
bars up to and including `i`, then `ema`, the three MACD outputs, `rsi`
and the three Bollinger bands agree at bar `i`. -/
theorem indicators_causal (xs ys : List F) (i : ℕ)
    (h : xs.take (i + 1) = ys.take (i + 1))
    (span fast slow sig period bn : ℕ) (k : ℚ) (sq : ℚ → ℚ) :
    (ema xs span)[i]? = (ema ys span)[i]? ∧
    ((macd xs fast slow sig).1)[i]? = ((macd ys fast slow sig).1)[i]? ∧
    ((macd xs fast slow sig).2.1)[i]? = ((macd ys fast slow sig).2.1)[i]? ∧
    ((macd xs fast slow sig).2.2)[i]? = ((macd ys fast slow sig).2.2)[i]? ∧
    (rsi xs period)[i]? = (rsi ys period)[i]? ∧
    ((bollinger sq xs bn k).1)[i]? = ((bollinger sq ys bn k).1)[i]? ∧
    ((bollinger sq xs bn k).2.1)[i]? = ((bollinger sq ys bn k).2.1)[i]? ∧
    ((bollinger sq xs bn k).2.2)[i]? = ((bollinger sq ys bn k).2.2)[i]? := by
  have hi : i < i + 1 := Nat.lt_succ_self i
  exact ⟨getElem?_of_take_eq (ema_causal span (i + 1) xs ys h) hi,
    getElem?_of_take_eq (macdLine_causal fast slow sig (i + 1) xs ys h) hi,
    getElem?_of_take_eq (macdSignal_causal fast slow sig (i + 1) xs ys h) hi,
    getElem?_of_take_eq (macdHist_causal fast slow sig (i + 1) xs ys h) hi,
    getElem?_of_take_eq (rsi_causal period (i + 1) xs ys h) hi,
    getElem?_of_take_eq (bbUpper_causal sq bn k (i + 1) xs ys h) hi,
    getElem?_of_take_eq (bbMid_causal sq bn k (i + 1) xs ys h) hi,
    getElem?_of_take_eq (bbLower_causal sq bn k (i + 1) xs ys h) hi⟩

/-- Witness for C5 on two concrete series agreeing up to bar 1. -/
theorem indicators_causal_witness :
    (ema [some 1, some 2, some 3] 2)[1]? =
      (ema [some 1, some 2, some 7] 2)[1]? :=
  (indicators_causal [some 1, some 2, some 3] [some 1, some 2, some 7] 1
    (by with_unfolding_all decide) 2 12 26 9 14 20 2 (fun _ => 0)).1

/-- Nonnegative-or-undefined cells. -/
def NonnegF (o : F) : Prop := ∀ v : ℚ, o = some v → 0 ≤ v

theorem nonnegF_getD {xs : List F} (h : ∀ o ∈ xs, NonnegF o) (j : ℕ) :
    NonnegF (xs.getD j none) := by
  rw [List.getD_eq_getElem?_getD]
  cases hx : xs[j]? with
  | none => intro v hv; simp at hv
  | some o => simpa using h o (List.getElem?_mem hx)

theorem gains_nonneg (close : List F) : ∀ o ∈ gains close, NonnegF o := by
  intro o ho
  obtain ⟨d, _, rfl⟩ := List.mem_map.mp ho
  intro v hv
  cases d with
  | none => simp at hv
  | some w =>
    have : v = max w 0 := by simpa using hv.symm
    rw [this]
    exact le_max_right w 0

theorem losses_nonneg (close : List F) : ∀ o ∈ losses close, NonnegF o := by
  intro o ho
  obtain ⟨d, hd, rfl⟩ := List.mem_map.mp ho
  obtain ⟨e, _, rfl⟩ := List.mem_map.mp hd
  intro v hv
  cases e with
  | none => simp at hv
  | some u =>
    have : v = -(min u 0) := by simpa using hv.symm
    rw [this]
    exact neg_nonneg.mpr (min_le_right u 0)

theorem allSome_mem {w : List F} {vs : List ℚ} (h : allSome w = some vs) :
    ∀ v ∈ vs, some v ∈ w := by
  induction w generalizing vs with
  | nil =>
    have hv : vs = [] := by simpa [allSome] using h.symm
    subst hv
    intro v hv
    simp at hv
  | cons x rest ih =>
    cases x with
    | none => simp [allSome] at h
    | some a =>
      simp only [allSome] at h
      cases hr : allSome rest with
      | none => rw [hr] at h; simp at h
      | some vs' =>
        rw [hr] at h
        have hvs : vs = a :: vs' := by simpa using h.symm
        subst hvs
        intro v hv
        rcases List.mem_cons.mp hv with hva | hvr
        · subst hva; exact List.mem_cons_self _ _
        · exact List.mem_cons_of_mem _ (ih hr v hvr)

theorem rollingMean_nonneg (k : ℕ) (xs : List F)
    (hxs : ∀ o ∈ xs, NonnegF o) : ∀ o ∈ rollingMean k xs, NonnegF o := by
  intro o ho
  unfold rollingMean at ho
  obtain ⟨i, _, rfl⟩ := List.mem_map.mp ho
  by_cases hg : k ≤ i + 1
  · rw [if_pos hg]
    cases hw : allSome ((xs.drop (i + 1 - k)).take k) with
    | none => intro v hv; simp at hv
    | some vs =>
      intro v hv
      have hvv : v = vs.sum / (k : ℚ) := by simpa using hv.symm
      rw [hvv]
      apply div_nonneg
      · apply List.sum_nonneg
        intro v' hv'
        have hmem : some v' ∈ (xs.drop (i + 1 - k)).take k :=
          allSome_mem hw v' hv'
        have hmem2 : some v' ∈ xs :=
          List.mem_of_mem_drop (List.mem_of_mem_take hmem)
        exact hxs _ hmem2 v' rfl
      · exact Nat.cast_nonneg k
  · rw [if_neg hg]
    intro v hv
    simp at hv

theorem shift1_nonneg (xs : List F) (hxs : ∀ o ∈ xs, NonnegF o) :
    ∀ o ∈ shift1 xs, NonnegF o := by
  intro o ho
  unfold shift1 at ho
  obtain ⟨i, _, rfl⟩ := List.mem_map.mp ho
  by_cases h0 : i = 0
  · rw [if_pos h0]; intro v hv; simp at hv
  · rw [if_neg h0]; exact nonnegF_getD hxs (i - 1)

theorem ewmRec_nonneg (a : ℚ) (ha0 : 0 ≤ a) (ha1 : a ≤ 1) :
    ∀ (xs : List F) (num den : ℚ), 0 ≤ num → 0 ≤ den →
    (∀ o ∈ xs, NonnegF o) → ∀ o ∈ ewmRec a num den xs, NonnegF o := by
  intro xs
  induction xs with
  | nil => intro num den _ _ _ o ho; simp [ewmRec] at ho
  | cons x rest ih =>
    intro num den hnum hden hxs o ho
    have h1a : 0 ≤ 1 - a := by linarith
    cases x with
    | some v =>
      have hv : 0 ≤ v := hxs (some v) (List.mem_cons_self _ _) v rfl
      have hn2 : 0 ≤ (1 - a) * num + a * v :=
        add_nonneg (mul_nonneg h1a hnum) (mul_nonneg ha0 hv)
      have hd2 : 0 ≤ (1 - a) * den + a :=
        add_nonneg (mul_nonneg h1a hden) ha0
      simp only [ewmRec] at ho
      rcases List.mem_cons.mp ho with hh | hh
      · rw [hh]
        intro w hw
        have : w = ((1 - a) * num + a * v) / ((1 - a) * den + a) := by
          simpa using hw.symm
        rw [this]
        exact div_nonneg hn2 hd2
      · exact ih _ _ hn2 hd2
          (fun o' ho' => hxs o' (List.mem_cons_of_mem _ ho')) o hh
    | none =>
      have hn1 : 0 ≤ (1 - a) * num := mul_nonneg h1a hnum
      have hd1 : 0 ≤ (1 - a) * den := mul_nonneg h1a hden
      simp only [ewmRec] at ho
      rcases List.mem_cons.mp ho with hh | hh
      · rw [hh]
        intro w hw
        have : w = ((1 - a) * num) / ((1 - a) * den) := by simpa using hw.symm
        rw [this]
        exact div_nonneg hn1 hd1
      · exact ih _ _ hn1 hd1
          (fun o' ho' => hxs o' (List.mem_cons_of_mem _ ho')) o hh

theorem ewmMean_nonneg (a : ℚ) (ha0 : 0 ≤ a) (ha1 : a ≤ 1) :
    ∀ xs : List F, (∀ o ∈ xs, NonnegF o) → ∀ o ∈ ewmMean a xs, NonnegF o := by
  intro xs
  induction xs with
  | nil => intro _ o ho; simp [ewmMean] at ho
  | cons x rest ih =>
    intro hxs o ho
    cases x with
    | none =>
      simp only [ewmMean] at ho
      rcases List.mem_cons.mp ho with hh | hh
      · rw [hh]; intro v hv; simp at hv
      · exact ih (fun o' ho' => hxs o' (List.mem_cons_of_mem _ ho')) o hh
    | some v =>
      have hv : 0 ≤ v := hxs (some v) (List.mem_cons_self _ _) v rfl
      simp only [ewmMean] at ho
      rcases List.mem_cons.mp ho with hh | hh
      · rw [hh]
        intro w hw
        have hwv : w = v := by simpa using hw.symm
        rw [hwv]
        exact hv
      · exact ewmRec_nonneg a ha0 ha1 rest v 1 hv zero_le_one
          (fun o' ho' => hxs o' (List.mem_cons_of_mem _ ho')) o hh

theorem wilder_alpha_nonneg (p : ℕ) : 0 ≤ 1 / (p : ℚ) := by positivity

theorem wilder_alpha_le_one (p : ℕ) (hp : 1 ≤ p) : 1 / (p : ℚ) ≤ 1 := by
  have hp1 : (1 : ℚ) ≤ (p : ℚ) := by exact_mod_cast hp
  rw [div_le_one (by linarith)]
  exact hp1

theorem avgGainS_nonneg (close : List F) (p : ℕ) (hp : 1 ≤ p) :
    ∀ o ∈ avgGainS close p, NonnegF o :=
  ewmMean_nonneg _ (wilder_alpha_nonneg p) (wilder_alpha_le_one p hp) _
    (shift1_nonneg _ (rollingMean_nonneg _ _ (gains_nonneg close)))

theorem avgLossS_nonneg (close : List F) (p : ℕ) (hp : 1 ≤ p) :
    ∀ o ∈ avgLossS close p, NonnegF o :=
  ewmMean_nonneg _ (wilder_alpha_nonneg p) (wilder_alpha_le_one p hp) _
    (shift1_nonneg _ (rollingMean_nonneg _ _ (losses_nonneg close)))

theorem diff_length (xs : List F) : (diff xs).length = xs.length := by
  simp [diff]

theorem shift1_length (xs : List F) : (shift1 xs).length = xs.length := by
  simp [shift1]

theorem rollingMean_length (k : ℕ) (xs : List F) :
    (rollingMean k xs).length = xs.length := by
  simp [rollingMean]

theorem gains_length (close : List F) :
    (gains close).length = close.length := by
  simp [gains, diff_length]

theorem losses_length (close : List F) :
    (losses close).length = close.length := by
  simp [losses, diff_length]

theorem avgGainS_length (close : List F) (p : ℕ) :
    (avgGainS close p).length = close.length := by
  rw [avgGainS, ewmMean_length, shift1_length, avgGainRaw,
    rollingMean_length, gains_length]

theorem avgLossS_length (close : List F) (p : ℕ) :
    (avgLossS close p).length = close.length := by
  rw [avgLossS, ewmMean_length, shift1_length, avgLossRaw,
    rollingMean_length, losses_length]

/-- C6: wherever `rsi` is defined, its value lies in `[0, 100]`. -/
theorem rsi_bounded (close : List F) (period : ℕ) (hp : 1 ≤ period)
    (v : ℚ) (hv : some v ∈ rsi close period) : 0 ≤ v ∧ v ≤ 100 := by
  obtain ⟨i, hi⟩ := List.mem_iff_getElem?.mp hv
  unfold rsi at hi
  rw [List.getElem?_map] at hi
  cases hz : (List.zipWith fdiv (avgGainS close period)
      ((avgLossS close period).map replace0))[i]? with
  | none => rw [hz] at hi; simp at hi
  | some r =>
    rw [hz] at hi
    have hr : rsiF r = some v := by simpa using hi
    cases r with
    | none => simp [rsiF] at hr
    | some rq =>
      have hv' : v = 100 - 100 / (1 + rq) := by simpa [rsiF] using hr.symm
      rw [List.getElem?_zipWith] at hz
      cases hA : (avgGainS close period)[i]? with
      | none => rw [hA] at hz; simp at hz
      | some g =>
        cases hB : ((avgLossS close period).map replace0)[i]? with
        | none => rw [hA, hB] at hz; simp at hz
        | some l =>
          rw [hA, hB] at hz
          have hfd : fdiv g l = some rq := by simpa using hz
          cases g with
          | none => simp [fdiv] at hfd
          | some gq =>
            cases l with
            | none => simp [fdiv] at hfd
            | some lq =>
              by_cases hl0 : lq = 0
              · simp [fdiv, hl0] at hfd
              · have hrq : rq = gq / lq := by
                  have := hfd
                  simp only [fdiv, if_neg hl0, Option.some.injEq] at this
                  exact this.symm
                have hg0 : 0 ≤ gq :=
                  avgGainS_nonneg close period hp (some gq)
                    (List.getElem?_mem hA) gq rfl
                rw [List.getElem?_map] at hB
                cases hC : (avgLossS close period)[i]? with
                | none => rw [hC] at hB; simp at hB
                | some c =>
                  rw [hC] at hB
                  have hrep : replace0 c = some lq := by simpa using hB
                  cases c with
                  | none => simp [replace0] at hrep
                  | some cq =>
                    by_cases hc0 : cq = 0
                    · simp [replace0, hc0] at hrep
                    · have hcl : cq = lq := by
                        simpa [replace0, hc0] using hrep
                      have hc_nonneg : 0 ≤ cq :=
                        avgLossS_nonneg close period hp (some cq)
                          (List.getElem?_mem hC) cq rfl
                      have hl_pos : 0 < lq :=
                        lt_of_le_of_ne (hcl ▸ hc_nonneg)
                          (fun hh => hl0 hh.symm)
                      have hrq0 : 0 ≤ rq := by
                        rw [hrq]; exact div_nonneg hg0 hl_pos.le
                      have h1r : (0 : ℚ) < 1 + rq := by linarith
                      constructor
                      · have hle : 100 / (1 + rq) ≤ 100 := by
                          rw [div_le_iff₀ h1r]; nlinarith
                        rw [hv']; linarith
                      · have hpos : 0 < 100 / (1 + rq) := by positivity
                        rw [hv']; linarith

/-- Witness for C6 on a concrete series where RSI is defined. -/
theorem rsi_bounded_witness :
    0 ≤ (0 : ℚ) ∧ (0 : ℚ) ≤ 100 :=
  rsi_bounded [some 1, some 3, some 2, some 4] 1 (by decide) 0
    (by with_unfolding_all decide)

/-- C7: if the Wilder-smoothed average loss at a bar is zero, `rsi`
leaves that bar undefined (consistently, via `.replace(0, nan)`), and
the division inside `rsi` never receives a zero denominator, so no
infinity can arise. -/
theorem rsi_zero_loss_undefined (close : List F) (period : ℕ) (i : ℕ)
    (h0 : (avgLossS close period)[i]? = some (some 0)) :
    (rsi close period)[i]? = some none ∧
    ∀ o ∈ (avgLossS close period).map replace0, o ≠ some 0 := by
  constructor
  · have hB : ((avgLossS close period).map replace0)[i]? = some none := by
      rw [List.getElem?_map, h0]
      simp [replace0]
    have hiL : i < (avgLossS close period).length := by
      by_contra hcon
      rw [List.getElem?_eq_none (Nat.le_of_not_lt hcon)] at h0
      simp at h0
    have hiA : i < (avgGainS close period).length := by
      rw [avgGainS_length]
      rw [avgLossS_length] at hiL
      exact hiL
    obtain ⟨g, hA⟩ : ∃ g, (avgGainS close period)[i]? = some g :=
      ⟨_, List.getElem?_eq_getElem hiA⟩
    unfold rsi
    rw [List.getElem?_map, List.getElem?_zipWith, hA, hB]
    cases g <;> simp [fdiv, rsiF]
  · intro o ho hoeq
    obtain ⟨c, _, hrep⟩ := List.mem_map.mp ho
    rw [hoeq] at hrep
    cases c with
    | none => simp [replace0] at hrep
    | some cq =>
      by_cases hc0 : cq = 0
      · simp [replace0, hc0] at hrep
      · simp [replace0, hc0] at hrep

/-- Witness for C7 at a concrete bar with zero average loss. -/
theorem rsi_zero_loss_undefined_witness :
    (rsi [some 1, some 3, some 2, some 4] 1)[2]? = some none :=
  (rsi_zero_loss_undefined [some 1, some 3, some 2, some 4] 1 2
    (by with_unfolding_all decide)).1

theorem drop_replicate {α : Type} (a : α) : ∀ n j : ℕ,
    (List.replicate n a).drop j = List.replicate (n - j) a := by
  intro n
  induction n with
  | zero => intro j; simp
  | succ m ih =>
    intro j
    cases j with
    | zero => simp
    | succ jj => simp [List.replicate_succ, ih jj]

theorem take_replicate {α : Type} (a : α) : ∀ n j : ℕ,
    (List.replicate n a).take j = List.replicate (min j n) a := by
  intro n
  induction n with
  | zero => intro j; simp
  | succ m ih =>
    intro j
    cases j with
    | zero => simp
    | succ jj =>
      simp only [List.replicate_succ, List.take_succ_cons, ih jj,
        Nat.succ_min_succ]

theorem allSome_replicate (c : ℚ) : ∀ k : ℕ,
    allSome (List.replicate k (some c)) = some (List.replicate k c) := by
  intro k
  induction k with
  | zero => rfl
  | succ j ih => simp [List.replicate_succ, allSome, ih]

theorem sum_replicate_q (k : ℕ) (c : ℚ) :
    (List.replicate k c).sum = (k : ℚ) * c := by
  simp [List.sum_replicate, nsmul_eq_mul]

theorem pvariance_replicate (k : ℕ) (hk : k ≠ 0) (c : ℚ) :
    pvariance (List.replicate k c) = 0 := by
  have hkQ : (k : ℚ) ≠ 0 := Nat.cast_ne_zero.mpr hk
  show ((List.replicate k c).map fun v =>
      (v - (List.replicate k c).sum / ((List.replicate k c).length : ℚ)) ^ 2).sum /
    ((List.replicate k c).length : ℚ) = 0
  have hm : (List.replicate k c).sum / ((List.replicate k c).length : ℚ) = c := by
    rw [sum_replicate_q, List.length_replicate, mul_comm, mul_div_assoc,
      div_self hkQ, mul_one]
  rw [hm, List.map_replicate]
  simp

theorem rollingMean_replicate (c : ℚ) (m n i : ℕ) (hi : i < m) (hn0 : n ≠ 0) :
    (rollingMean n (List.replicate m (some c)))[i]? =
      some (if n ≤ i + 1 then some c else none) := by
  unfold rollingMean
  rw [List.getElem?_map, List.getElem?_range (by simpa using hi)]
  dsimp only [Option.map]
  by_cases hg : n ≤ i + 1
  · rw [if_pos hg, if_pos hg]
    have hwin : ((List.replicate m (some c)).drop (i + 1 - n)).take n =
        List.replicate n (some c) := by
      rw [drop_replicate, take_replicate]
      congr 1
      omega
    rw [hwin, allSome_replicate]
    show some (some ((List.replicate n c).sum / (n : ℚ))) = some (some c)
    rw [sum_replicate_q]
    have hkQ : (n : ℚ) ≠ 0 := Nat.cast_ne_zero.mpr hn0
    rw [mul_comm, mul_div_assoc, div_self hkQ, mul_one]
  · rw [if_neg hg, if_neg hg]

theorem rollingStd_replicate (sq : ℚ → ℚ) (hsq : sq 0 = 0) (c : ℚ)
    (m n i : ℕ) (hi : i < m) (hn0 : n ≠ 0) :
    (rollingStd sq n (List.replicate m (some c)))[i]? =
      some (if n ≤ i + 1 then some 0 else none) := by
  unfold rollingStd
  rw [List.getElem?_map, List.getElem?_range (by simpa using hi)]
  dsimp only [Option.map]
  by_cases hg : n ≤ i + 1
  · rw [if_pos hg, if_pos hg]
    have hwin : ((List.replicate m (some c)).drop (i + 1 - n)).take n =
        List.replicate n (some c) := by
      rw [drop_replicate, take_replicate]
      congr 1
      omega
    rw [hwin, allSome_replicate]
    show some (some (sq (pvariance (List.replicate n c)))) = some (some 0)
    rw [pvariance_replicate n hn0 c, hsq]
  · rw [if_neg hg, if_neg hg]

theorem bbands_const (sq : ℚ → ℚ) (hsq : sq 0 = 0) (c : ℚ) (m i : ℕ)
    (hi : i < m) :
    ((bollinger sq (List.replicate m (some c)) 20 2).1)[i]? =
      some (if 20 ≤ i + 1 then some c else none) ∧
    ((bollinger sq (List.replicate m (some c)) 20 2).2.1)[i]? =
      some (if 20 ≤ i + 1 then some c else none) ∧
    ((bollinger sq (List.replicate m (some c)) 20 2).2.2)[i]? =
      some (if 20 ≤ i + 1 then some c else none) := by
  refine ⟨?_, ?_, ?_⟩
  · show (List.zipWith fadd (rollingMean 20 (List.replicate m (some c)))
        ((rollingStd sq 20 (List.replicate m (some c))).map (fscale 2)))[i]? = _
    rw [List.getElem?_zipWith, rollingMean_replicate c m 20 i hi (by norm_num),
      List.getElem?_map, rollingStd_replicate sq hsq c m 20 i hi (by norm_num)]
    by_cases hg : 20 ≤ i + 1
    · simp only [if_pos hg]
      show some (fadd (some c) (fscale 2 (some 0))) = some (some c)
      show some (some (c + 2 * 0)) = some (some c)
      norm_num
    · simp only [if_neg hg]
      rfl
  · exact rollingMean_replicate c m 20 i hi (by norm_num)
  · show (List.zipWith fsub (rollingMean 20 (List.replicate m (some c)))
        ((rollingStd sq 20 (List.replicate m (some c))).map (fscale 2)))[i]? = _
    rw [List.getElem?_zipWith, rollingMean_replicate c m 20 i hi (by norm_num),
      List.getElem?_map, rollingStd_replicate sq hsq c m 20 i hi (by norm_num)]
    by_cases hg : 20 ≤ i + 1
    · simp only [if_pos hg]
      show some (fsub (some c) (fscale 2 (some 0))) = some (some c)
      show some (some (c - 2 * 0)) = some (some c)
      norm_num
    · simp only [if_neg hg]
      rfl

theorem beq_bbup_px : (cBBUP == cPX) = false := by with_unfolding_all decide

theorem beq_bblo_px : (cBBLO == cPX) = false := by with_unfolding_all decide

theorem beq_bblo_bbup : (cBBLO == cBBUP) = false := by with_unfolding_all decide

theorem getCol_bbFrame_px (sq : ℚ → ℚ) (close : List F) (n : ℕ) (k : ℚ) :
    getCol (bbFrame sq close n k) cPX = close := by
  simp [getCol, bbFrame, List.lookup]

theorem getCol_bbFrame_up (sq : ℚ → ℚ) (close : List F) (n : ℕ) (k : ℚ) :
    getCol (bbFrame sq close n k) cBBUP = (bollinger sq close n k).1 := by
  simp [getCol, bbFrame, List.lookup, beq_bbup_px]

theorem getCol_bbFrame_lo (sq : ℚ → ℚ) (close : List F) (n : ℕ) (k : ℚ) :
    getCol (bbFrame sq close n k) cBBLO = (bollinger sq close n k).2.2 := by
  simp [getCol, bbFrame, List.lookup, beq_bblo_px, beq_bblo_bbup]

theorem fle_none_left (y : F) : fle none y = false := rfl

theorem fle_none_right (x : F) : fle x none = false := by cases x <;> rfl

theorem flt_none_left (y : F) : flt none y = false := rfl

theorem flt_none_right (x : F) : flt x none = false := by cases x <;> rfl

theorem flt_self (c : ℚ) : flt (some c) (some c) = false := by
  simp [flt]

/-- C8: on a constant price series longer than the 20-bar window, all
three Bollinger bands equal the constant wherever the window is full,
and `bb_state` holds at every bar of the series. -/
theorem bollinger_constant_spec (c : ℚ) (m : ℕ) (sq : ℚ → ℚ)
    (hm : 20 < m) (hsq : sq 0 = 0) :
    (∀ i, 19 ≤ i → i < m →
      ((bollinger sq (List.replicate m (some c)) 20 2).1)[i]? =
          some (some c) ∧
      ((bollinger sq (List.replicate m (some c)) 20 2).2.1)[i]? =
          some (some c) ∧
      ((bollinger sq (List.replicate m (some c)) 20 2).2.2)[i]? =
          some (some c)) ∧
    (∀ idx, idx < m →
      bb_state (bbFrame sq (List.replicate m (some c)) 20 2) idx cPX =
        State.HOLD) := by
  have _ := hm
  constructor
  · intro i h19 him
    have h := bbands_const sq hsq c m i him
    have hg : 20 ≤ i + 1 := by omega
    refine ⟨?_, ?_, ?_⟩
    · rw [h.1, if_pos hg]
    · rw [h.2.1, if_pos hg]
    · rw [h.2.2, if_pos hg]
  · intro idx hidx
    by_cases h0 : idx = 0
    · subst h0; rfl
    · have hpm : idx - 1 < m := by omega
      have hpx : colv (bbFrame sq (List.replicate m (some c)) 20 2) cPX
          (idx - 1) = some c := by
        show (getCol (bbFrame sq (List.replicate m (some c)) 20 2)
          cPX).getD (idx - 1) none = some c
        rw [getCol_bbFrame_px, List.getD_eq_getElem?_getD,
          List.getElem?_replicate, if_pos hpm]
        rfl
      have hsucc : idx - 1 + 1 = idx := by omega
      have hlo : colv (bbFrame sq (List.replicate m (some c)) 20 2) cBBLO
          (idx - 1) = (if 20 ≤ idx then some c else none) := by
        show (getCol (bbFrame sq (List.replicate m (some c)) 20 2)
          cBBLO).getD (idx - 1) none = _
        rw [getCol_bbFrame_lo, List.getD_eq_getElem?_getD,
          (bbands_const sq hsq c m (idx - 1) hpm).2.2, hsucc]
        rfl
      have hup : colv (bbFrame sq (List.replicate m (some c)) 20 2) cBBUP
          (idx - 1) = (if 20 ≤ idx then some c else none) := by
        show (getCol (bbFrame sq (List.replicate m (some c)) 20 2)
          cBBUP).getD (idx - 1) none = _
        rw [getCol_bbFrame_up, List.getD_eq_getElem?_getD,
          (bbands_const sq hsq c m (idx - 1) hpm).1, hsucc]
        rfl
      have hbuy : bbBuyCond (bbFrame sq (List.replicate m (some c)) 20 2)
          idx cPX = false := by
        unfold bbBuyCond
        rw [hpx, hlo]
        by_cases hg : 20 ≤ idx
        · rw [if_pos hg, flt_self]
          rfl
        · rw [if_neg hg, flt_none_right]
          rfl
      have hsell : bbSellCond (bbFrame sq (List.replicate m (some c)) 20 2)
          idx cPX = false := by
        unfold bbSellCond
        rw [hpx, hup]
        by_cases hg : 20 ≤ idx
        · rw [if_pos hg, flt_self]
          rfl
        · rw [if_neg hg, flt_none_left]
          rfl
      unfold bb_state
      rw [if_neg h0, hbuy, hsell]
      rfl

/-- Witness for C8 on a concrete constant series. -/
theorem bollinger_constant_spec_witness :
    ((bollinger (fun q => q) (List.replicate 21 (some (5 : ℚ))) 20 2).1)[19]? =
      some (some 5) :=
  ((bollinger_constant_spec 5 21 (fun q => q) (by decide) rfl).1 19
    (by decide) (by decide)).1

theorem crossed_up_none (pa ca pb cb : F)
    (h : pa = none ∨ ca = none ∨ pb = none ∨ cb = none) :
    crossed_up pa ca pb cb = false := by
  rcases h with h | h | h | h <;> subst h <;>
    simp [crossed_up, fle_none_left, fle_none_right, flt_none_left,
      flt_none_right]

theorem crossed_down_none (pa ca pb cb : F)
    (h : pa = none ∨ ca = none ∨ pb = none ∨ cb = none) :
    crossed_down pa ca pb cb = false := by
  rcases h with h | h | h | h <;> subst h <;>
    simp [crossed_down, fle_none_left, fle_none_right, flt_none_left,
      flt_none_right]

/-- C4 counterexample: `bb_state` reads `BB_UPPER` at the previous bar
(the Python assigns `upper_prev`) but does not compare it in the buy
branch, so a frame whose `BB_UPPER[idx-1]` is NaN can still classify
BUY — not HOLD as the claim requires for any undefined read. -/
theorem bb_reads_nan_not_hold :
    colv dfBB0 cBBUP 0 = none ∧ bb_state dfBB0 1 cPX = State.BUY := by
  with_unfolding_all decide

/-- C4 (amended): bar 0 is always HOLD; an undefined value among the
values a classifier actually compares forces HOLD — all four MACD reads,
both RSI reads, and for Bollinger the price at both bars, the current
bands, or both previous-bar bands (an undefined `BB_UPPER[idx-1]` alone
only disables SELL, and `BB_LOWER[idx-1]` alone only BUY). -/
theorem nan_guard_hold (df : DFrame) (idx : ℕ) (pc : String) :
    (macd_state df 0 = State.HOLD ∧ rsi_state df 0 = State.HOLD ∧
      bb_state df 0 pc = State.HOLD) ∧
    (0 < idx →
      (colv df cMACD (idx - 1) = none ∨ colv df cMACD idx = none ∨
        colv df cMACDSIG (idx - 1) = none ∨ colv df cMACDSIG idx = none) →
      macd_state df idx = State.HOLD) ∧
    (0 < idx →
      (colv df cRSI (idx - 1) = none ∨ colv df cRSI idx = none) →
      rsi_state df idx = State.HOLD) ∧
    (0 < idx →
      (colv df pc (idx - 1) = none ∨ colv df pc idx = none ∨
        colv df cBBLO idx = none ∨ colv df cBBUP idx = none ∨
        (colv df cBBLO (idx - 1) = none ∧ colv df cBBUP (idx - 1) = none)) →
      bb_state df idx pc = State.HOLD) := by
  refine ⟨⟨rfl, rfl, rfl⟩, ?_, ?_, ?_⟩
  · intro hpos hdis
    have h0 : ¬ idx = 0 := Nat.pos_iff_ne_zero.mp hpos
    have hbuy : macdBuyCond df idx = false := by
      unfold macdBuyCond
      apply crossed_up_none
      rcases hdis with h | h | h | h
      · exact Or.inl h
      · exact Or.inr (Or.inl h)
      · exact Or.inr (Or.inr (Or.inl h))
      · exact Or.inr (Or.inr (Or.inr h))
    have hsell : macdSellCond df idx = false := by
      unfold macdSellCond
      apply crossed_down_none
      rcases hdis with h | h | h | h
      · exact Or.inl h
      · exact Or.inr (Or.inl h)
      · exact Or.inr (Or.inr (Or.inl h))
      · exact Or.inr (Or.inr (Or.inr h))
    unfold macd_state
    rw [if_neg h0, hbuy, hsell]
    rfl
  · intro hpos hdis
    have h0 : ¬ idx = 0 := Nat.pos_iff_ne_zero.mp hpos
    have hor : colv df cRSI (idx - 1) = none ∨ colv df cRSI idx = none ∨
        (some (30 : ℚ) : F) = none ∨ (some (30 : ℚ) : F) = none := by
      rcases hdis with h | h
      · exact Or.inl h
      · exact Or.inr (Or.inl h)
    have hor5 : colv df cRSI (idx - 1) = none ∨ colv df cRSI idx = none ∨
        (some (50 : ℚ) : F) = none ∨ (some (50 : ℚ) : F) = none := by
      rcases hdis with h | h
      · exact Or.inl h
      · exact Or.inr (Or.inl h)
    have hor7 : colv df cRSI (idx - 1) = none ∨ colv df cRSI idx = none ∨
        (some (70 : ℚ) : F) = none ∨ (some (70 : ℚ) : F) = none := by
      rcases hdis with h | h
      · exact Or.inl h
      · exact Or.inr (Or.inl h)
    have hbuy : rsiBuyCond df idx = false := by
      unfold rsiBuyCond
      rw [crossed_up_none _ _ _ _ hor, crossed_up_none _ _ _ _ hor5]
      rfl
    have hsell : rsiSellCond df idx = false := by
      unfold rsiSellCond
      rw [crossed_down_none _ _ _ _ hor7, crossed_down_none _ _ _ _ hor5]
      rfl
    unfold rsi_state
    rw [if_neg h0, hbuy, hsell]
    rfl
  · intro hpos hdis
    have h0 : ¬ idx = 0 := Nat.pos_iff_ne_zero.mp hpos
    have hboth : bbBuyCond df idx pc = false ∧ bbSellCond df idx pc = false := by
      rcases hdis with h | h | h | h | ⟨hl, hu⟩
      · constructor
        · unfold bbBuyCond
          rw [h, flt_none_left, Bool.false_and]
        · unfold bbSellCond
          rw [h, flt_none_right, Bool.false_and]
      · constructor
        · unfold bbBuyCond
          rw [h, fle_none_right, Bool.false_and, Bool.and_false]
        · unfold bbSellCond
          rw [h, fle_none_right, Bool.false_and, Bool.and_false]
      · constructor
        · unfold bbBuyCond
          rw [h, fle_none_left, Bool.false_and, Bool.and_false]
        · unfold bbSellCond
          rw [h, fle_none_left, Bool.false_and, Bool.and_false]
      · constructor
        · unfold bbBuyCond
          rw [h, fle_none_right, Bool.and_false, Bool.and_false]
        · unfold bbSellCond
          rw [h, fle_none_right, Bool.and_false, Bool.and_false]
      · constructor
        · unfold bbBuyCond
          rw [hl, flt_none_right, Bool.false_and]
        · unfold bbSellCond
          rw [hu, flt_none_left, Bool.false_and]
    unfold bb_state
    rw [if_neg h0, hboth.1, hboth.2]
    rfl

/-- Witness for C4 (amended): a frame whose MACD column is NaN at the
previous bar classifies HOLD at bar 1. -/
theorem nan_guard_hold_witness :
    macd_state dfMACDnan 1 = State.HOLD :=
  (nan_guard_hold dfMACDnan 1 cPX).2.1 (by decide)
    (Or.inl (by with_unfolding_all decide))

/-- C2 counterexample: a one-bar frame with no columns is `empty` in
the pandas sense (the column axis has length 0), so the code raises —
refuting both "errors only on zero bars" and "every one-bar series
returns an all-HOLD snapshot". -/
theorem latest_snapshot_one_bar_no_cols :
    dfOneBar.index.length = 1 ∧
    latest_snapshot dfOneBar cPX = Except.error emptyMsg := ⟨rfl, rfl⟩

/-- C2 (amended): `latest_snapshot` errors exactly when the frame is
empty in the pandas sense — zero bars or zero columns; on a one-bar
frame with at least one column every state is HOLD, the majority is
HOLD, and the snapshot carries the last (only) index key. -/
theorem latest_snapshot_spec (df : DFrame) (p : String) :
    (latest_snapshot df p = Except.error emptyMsg ↔
      (df.index.length = 0 ∨ df.cols.length = 0)) ∧
    ∀ t, df.index = [t] → df.cols.length ≠ 0 →
      latest_snapshot df p =
        Except.ok ⟨State.HOLD, State.HOLD, State.HOLD, State.HOLD, t⟩ := by
  constructor
  · constructor
    · intro he
      by_contra hcon
      unfold latest_snapshot at he
      rw [if_neg hcon] at he
      exact Except.noConfusion he
    · intro h
      unfold latest_snapshot
      rw [if_pos h]
  · intro t ht hc
    have h : ¬ (df.index.length = 0 ∨ df.cols.length = 0) := by
      intro hor
      rcases hor with h1 | h2
      · rw [ht] at h1
        simp at h1
      · exact hc h2
    unfold latest_snapshot
    rw [if_neg h, ht]
    rfl

/-- Witness for C2 (amended) at a concrete one-bar, one-column frame. -/
theorem latest_snapshot_spec_witness :
    latest_snapshot dfPX1 cPX =
      Except.ok ⟨State.HOLD, State.HOLD, State.HOLD, State.HOLD, 0⟩ :=
  (latest_snapshot_spec dfPX1 cPX).2 0 rfl (by decide)

/-- C10 counterexample: on a frame whose previous-bar bands are inverted
(`BB_LOWER > BB_UPPER`), the Bollinger buy and sell conditions hold
simultaneously, so the two conditions inside `bb_state` are not mutually
exclusive and the result depends on the order the code tests them. -/
theorem bb_conds_overlap :
    bbBuyCond dfBB1 1 cPX = true ∧ bbSellCond dfBB1 1 cPX = true := by
  with_unfolding_all decide

/-- C10 (amended): `crossed_up` and `crossed_down` are never both true;
the buy and sell conditions of `macd_state` and of `rsi_state` are
mutually exclusive on every frame; those of `bb_state` are mutually
exclusive whenever the previous bar's lower band does not exceed its
upper band; and every classifier returns one of BUY, SELL, HOLD. -/
theorem classifier_conditions_exclusive :
    (∀ pa ca pb cb : F,
      ¬(crossed_up pa ca pb cb = true ∧ crossed_down pa ca pb cb = true)) ∧
    (∀ df idx, ¬(macdBuyCond df idx = true ∧ macdSellCond df idx = true)) ∧
    (∀ df idx, ¬(rsiBuyCond df idx = true ∧ rsiSellCond df idx = true)) ∧
    (∀ df idx pc,
      (∀ u l : ℚ, colv df cBBUP (idx - 1) = some u →
        colv df cBBLO (idx - 1) = some l → l ≤ u) →
      ¬(bbBuyCond df idx pc = true ∧ bbSellCond df idx pc = true)) ∧
    (∀ df idx pc,
      (macd_state df idx = State.BUY ∨ macd_state df idx = State.SELL ∨
        macd_state df idx = State.HOLD) ∧
      (rsi_state df idx = State.BUY ∨ rsi_state df idx = State.SELL ∨
        rsi_state df idx = State.HOLD) ∧
      (bb_state df idx pc = State.BUY ∨ bb_state df idx pc = State.SELL ∨
        bb_state df idx pc = State.HOLD)) :=
  ⟨crossed_excl, macd_excl, rsi_excl, bb_excl, fun _ _ _ =>
    ⟨state_total _, state_total _, state_total _⟩⟩

/-- Witness for C10 (amended) at concrete arguments. -/
theorem classifier_conditions_exclusive_witness :
    ¬(crossed_up (some 1) (some 2) (some 1) (some 1) = true ∧
      crossed_down (some 1) (some 2) (some 1) (some 1) = true) :=
  classifier_conditions_exclusive.1 (some 1) (some 2) (some 1) (some 1)

/-- C9 counterexample: a frame with a pre-existing column named `RSI`
has that column's values replaced by `attach_indicators`, so not every
pre-existing column survives unchanged. -/
theorem attach_overwrites_existing_col :
    (attach_indicators (fun _ => 0) dfRSI5 cPX).map (fun d => getCol d cRSI) ≠
      some (getCol dfRSI5 cRSI) := by
  with_unfolding_all decide

/-- C9 (amended): `attach_indicators` leaves the frame's index and every
pre-existing column whose name is not one of the seven indicator column
names unchanged (the price column included, when not so named). -/
theorem attach_keeps_other_cols (sq : ℚ → ℚ) (df df' : DFrame)
    (p c : String) (h : attach_indicators sq df p = some df')
    (hc : ¬ c ∈ indicatorNames) :
    getCol df' c = getCol df c ∧ df'.index = df.index := by
  simp only [indicatorNames, List.mem_cons, List.not_mem_nil, or_false,
    not_or] at hc
  obtain ⟨h1, h2, h3, h4, h5, h6, h7⟩ := hc
  unfold attach_indicators at h
  cases hl : df.cols.lookup p with
  | none => rw [hl] at h; simp at h
  | some close =>
    rw [hl] at h
    simp only [Option.some.injEq] at h
    subst h
    refine ⟨?_, rfl⟩
    rw [getCol_setCol_ne _ _ _ _ h7, getCol_setCol_ne _ _ _ _ h6,
      getCol_setCol_ne _ _ _ _ h5, getCol_setCol_ne _ _ _ _ h4,
      getCol_setCol_ne _ _ _ _ h3, getCol_setCol_ne _ _ _ _ h2,
      getCol_setCol_ne _ _ _ _ h1]

/-- Witness for C9 (amended) at a concrete frame. -/
theorem attach_keeps_other_cols_witness :
    getCol ((attach_indicators (fun _ => 0) dfPX1 cPX).getD ⟨[], []⟩) cPX =
      getCol dfPX1 cPX :=
  (attach_keeps_other_cols (fun _ => 0) dfPX1
    ((attach_indicators (fun _ => 0) dfPX1 cPX).getD ⟨[], []⟩) cPX cPX
    (by with_unfolding_all decide) (by decide)).1

end SignalWatch
